import Mathlib

/-!
Verification of the Ferrero peg-solitaire environment (`src/game.py`, class `Game`).

The board `self.state['obs']` is a ROW×COL numpy array of 0/1 values; we model it
as a `List (List Nat)` (row-major).  Cell reads performed by the scanning
functions (`get_legal_actions`, `get_legal_pos`) only touch indices that their
guards keep inside `[0,ROW)×[0,COL)`, so they are modelled with total `getD`
access.  The writes performed by `step` use raw numpy indexing on `x-1`, `x-2`,
… which, in numpy, wraps a negative index `i` with `-n ≤ i < 0` to `i + n` and
raises `IndexError` outside `[-n, n)`; `npIdx`/`npSet` model exactly that, with
`IndexError` rendered as `none`.
-/

namespace Ferrero

/-- A board: row-major grid of cells, `1` = occupied, `0` = empty. -/
abbrev Board := List (List Nat)

/-- In-bounds cell read `obs[i, j]` (used where the source's loop guards
already confine `i`, `j` to the grid). -/
def cell (b : Board) (i j : Nat) : Nat := (b.getD i []).getD j 0

/-- `obs.sum()`: the sum of all cell values. -/
def boardSum (b : Board) : Nat := (b.map List.sum).sum

/-- The board has shape `R×C` (as every `np.ones((ROW, COL))` array does). -/
def Shape (R C : Nat) (b : Board) : Prop :=
  b.length = R ∧ ∀ row ∈ b, row.length = C

/-- Well-formed board of shape `R×C` whose cells are all 0 or 1
(the invariant stated for `self.state['obs']`). -/
def WF (R C : Nat) (b : Board) : Prop :=
  Shape R C b ∧ ∀ row ∈ b, ∀ v ∈ row, v = 0 ∨ v = 1

/-- The dict `self.state = {'obs': …, 'legal_actions': …}`. -/
structure GState where
  obs : Board
  legal_actions : List Nat
deriving Repr, DecidableEq

/-- The `Game` object: grid dimensions and the (single, mutable) state dict. -/
structure Game where
  ROW : Nat
  COL : Nat
  state : GState
deriving Repr, DecidableEq

/-- numpy index resolution for an axis of length `n`: a negative index `i`
with `-n ≤ i` wraps to `i + n`; an index outside `[-n, n)` is an
`IndexError` (`none`). -/
def npIdx (n : Nat) (i : Int) : Option Nat :=
  if 0 ≤ i then (if i < (n : Int) then some i.toNat else none)
  else (if 0 ≤ i + (n : Int) then some (i + (n : Int)).toNat else none)

/-- Plain in-bounds write `obs[i, j] = v` on the list-of-lists model. -/
def setN (b : Board) (i j : Nat) (v : Nat) : Board :=
  b.set i ((b.getD i []).set j v)

/-- numpy write `obs[i, j] = v` with `Int` indices: resolves both indices with
`npIdx` (negative wrap-around, `IndexError` outside range), then writes. -/
def npSet (b : Board) (i j : Int) (v : Nat) : Option Board := do
  let i' ← npIdx b.length i
  let j' ← npIdx (b.getD i' []).length j
  some (setN b i' j' v)

/-- The body of the scan of `get_legal_actions` for one cell `(i, j)`:
the (at most four) encoded actions appended for that cell, in the source's
direction order up, down, left, right.  The Python guard `0 <= i - 2 < ROW`
(on Python ints) is rendered as `2 ≤ i ∧ i - 2 < R` over `Nat`, which agrees
with it for every natural `i`; `0 <= i + 2 < ROW` is `i + 2 < R`. -/
def cellMoves (R C : Nat) (b : Board) (i j : Nat) : List Nat :=
  if cell b i j = 1 then
    (if 2 ≤ i ∧ i - 2 < R then
      (if cell b (i-1) j = 1 ∧ cell b (i-2) j = 0 then [(i*C+j)*4 + 0] else []) else [])
    ++ (if i + 2 < R then
      (if cell b (i+1) j = 1 ∧ cell b (i+2) j = 0 then [(i*C+j)*4 + 1] else []) else [])
    ++ (if 2 ≤ j ∧ j - 2 < C then
      (if cell b i (j-1) = 1 ∧ cell b i (j-2) = 0 then [(i*C+j)*4 + 2] else []) else [])
    ++ (if j + 2 < C then
      (if cell b i (j+1) = 1 ∧ cell b i (j+2) = 0 then [(i*C+j)*4 + 3] else []) else [])
  else []

/-- `Game.get_legal_actions`: scan rows, then columns, appending each cell's
legal encoded actions (direction order up, down, left, right). -/
def get_legal_actions (R C : Nat) (b : Board) : List Nat :=
  (List.range R).flatMap fun i => (List.range C).flatMap fun j => cellMoves R C b i j

/-- `Game.is_end`: `True if actions == [] else False`. -/
def is_end (R C : Nat) (b : Board) : Bool :=
  if get_legal_actions R C b = [] then true else false

/-- `Game.get_legal_pos`: destination cells of the legal jumps from `pos`,
in direction order up, down, left, right (guards rendered over `Nat` exactly
as in `cellMoves`). -/
def get_legal_pos (R C : Nat) (b : Board) (pos : Nat × Nat) : List (Nat × Nat) :=
  let (x, y) := pos
  if cell b x y = 1 then
    (if 2 ≤ x ∧ x - 2 < R then
      (if cell b (x-1) y = 1 ∧ cell b (x-2) y = 0 then [(x-2, y)] else []) else [])
    ++ (if x + 2 < R then
      (if cell b (x+1) y = 1 ∧ cell b (x+2) y = 0 then [(x+2, y)] else []) else [])
    ++ (if 2 ≤ y ∧ y - 2 < C then
      (if cell b x (y-1) = 1 ∧ cell b x (y-2) = 0 then [(x, y-2)] else []) else [])
    ++ (if y + 2 < C then
      (if cell b x (y+1) = 1 ∧ cell b x (y+2) = 0 then [(x, y+2)] else []) else [])
  else []

/-- `Game.raw_to_std`: `(x*COL + y)*4 + direc`. -/
def raw_to_std (C : Nat) (pos : Nat × Nat) (direc : Nat) : Nat :=
  (pos.1 * C + pos.2) * 4 + direc

/-- `Game.std_to_raw`: `direc = a % 4; tmp = a // 4; x, y = tmp // COL, tmp % COL`;
returns `((x, y), direc)`. -/
def std_to_raw (C : Nat) (a : Nat) : (Nat × Nat) × Nat :=
  ((a / 4 / C, a / 4 % C), a % 4)

/-- The board mutation done by `Game.step` (lines 196–210): decode, clear the
source cell, then per direction clear the jumped-over cell and occupy the
landing cell.  The writes use numpy indexing (`npSet`), so no legality check
is performed; a write at an index outside numpy's range is `none`. -/
def stepMutate (C : Nat) (b : Board) (a : Nat) : Option Board := do
  let x := a / 4 / C
  let y := a / 4 % C
  let direc := a % 4
  let b1 ← npSet b (x : Int) (y : Int) 0
  if direc = 0 then do
    let b2 ← npSet b1 ((x : Int) - 1) (y : Int) 0
    npSet b2 ((x : Int) - 2) (y : Int) 1
  else if direc = 1 then do
    let b2 ← npSet b1 ((x : Int) + 1) (y : Int) 0
    npSet b2 ((x : Int) + 2) (y : Int) 1
  else if direc = 2 then do
    let b2 ← npSet b1 (x : Int) ((y : Int) - 1) 0
    npSet b2 (x : Int) ((y : Int) - 2) 1
  else if direc = 3 then do
    let b2 ← npSet b1 (x : Int) ((y : Int) + 1) 0
    npSet b2 (x : Int) ((y : Int) + 2) 1
  else
    some b1

/-- The board built by `Game.reset`: `np.ones((ROW, COL))` then `obs[0, 0] = 0`
(the write again through numpy indexing, so `none` when the grid is empty). -/
def resetObs (R C : Nat) : Option Board :=
  npSet (List.replicate R (List.replicate C 1)) 0 0 0

/-- `Game.reset`: rebuild `obs`, then recompute `legal_actions`. -/
def resetState (R C : Nat) : Option GState := do
  let b ← resetObs R C
  some ⟨b, get_legal_actions R C b⟩

/-- `Game.reset` acting on the whole object (ignores the previous board). -/
def reset (g : Game) : Option Game := do
  let s ← resetState g.ROW g.COL
  some { g with state := s }

/-- `Game.step`.  In the source, `state` and `next_state` are both bound to the
very dict `self.state`, which is then mutated in place (and overwritten by
`reset()` when the episode ends); so at return time both components of the
returned pair hold the final contents of `self.state`.  The returned tuple is
`(state, next_state, reward, done)` together with the updated `Game`. -/
def step (g : Game) (a : Nat) : Option (GState × GState × Int × Bool × Game) := do
  let b' ← stepMutate g.COL g.state.obs a
  if is_end g.ROW g.COL b' then
    let reward : Int := 8 - (boardSum b' : Int)
    let s ← resetState g.ROW g.COL
    let g' : Game := { g with state := s }
    some (g'.state, g'.state, reward, true, g')
  else
    let s : GState := ⟨b', get_legal_actions g.ROW g.COL b'⟩
    let g' : Game := { g with state := s }
    some (g'.state, g'.state, 0, false, g')

/-- The initial 6×8 board (all occupied except `(0,0)`), written out directly. -/
def b0 : Board :=
  (List.replicate 6 (List.replicate 8 1)).set 0 ((List.replicate 8 1).set 0 0)

/-- A freshly reset default game (`ROW=6`, `COL=8`). -/
def game0 : Game := ⟨6, 8, ⟨b0, get_legal_actions 6 8 b0⟩⟩

/-- Decoded source position of an encoded action (`pos` of `std_to_raw`). -/
def srcPos (C : Nat) (a : Nat) : Nat × Nat := (a / 4 / C, a / 4 % C)

/-- The jumped-over cell of an encoded action: one step from the source in the
decoded direction (for actions legal at some board, the subtractions do not
truncate because the legality guards force `2 ≤ x`, resp. `2 ≤ y`). -/
def jumpedPos (C : Nat) (a : Nat) : Nat × Nat :=
  if a % 4 = 0 then ((srcPos C a).1 - 1, (srcPos C a).2)
  else if a % 4 = 1 then ((srcPos C a).1 + 1, (srcPos C a).2)
  else if a % 4 = 2 then ((srcPos C a).1, (srcPos C a).2 - 1)
  else ((srcPos C a).1, (srcPos C a).2 + 1)

/-- The landing cell of an encoded action: two steps from the source in the
decoded direction. -/
def landPos (C : Nat) (a : Nat) : Nat × Nat :=
  if a % 4 = 0 then ((srcPos C a).1 - 2, (srcPos C a).2)
  else if a % 4 = 1 then ((srcPos C a).1 + 2, (srcPos C a).2)
  else if a % 4 = 2 then ((srcPos C a).1, (srcPos C a).2 - 2)
  else ((srcPos C a).1, (srcPos C a).2 + 2)

/-- The destination of a jump from `(x, y)` in direction `d`
(`0` up, `1` down, `2` left, `3` right). -/
def jumpDest (x y d : Nat) : Nat × Nat :=
  if d = 0 then (x - 2, y)
  else if d = 1 then (x + 2, y)
  else if d = 2 then (x, y - 2)
  else (x, y + 2)

/-- The conjunction of guards that `get_legal_actions` checks at source `(i,j)`
for direction `d`, read off the source (one disjunct per direction branch). -/
def dirOK (R C : Nat) (b : Board) (i j d : Nat) : Prop :=
  cell b i j = 1 ∧
  ((d = 0 ∧ 2 ≤ i ∧ i - 2 < R ∧ cell b (i-1) j = 1 ∧ cell b (i-2) j = 0) ∨
   (d = 1 ∧ i + 2 < R ∧ cell b (i+1) j = 1 ∧ cell b (i+2) j = 0) ∨
   (d = 2 ∧ 2 ≤ j ∧ j - 2 < C ∧ cell b i (j-1) = 1 ∧ cell b i (j-2) = 0) ∨
   (d = 3 ∧ j + 2 < C ∧ cell b i (j+1) = 1 ∧ cell b i (j+2) = 0))

/-- All three cells written by `step` for action `a` lie inside the `R×C` grid,
with no negative-index wrap-around: the decoded source is in bounds and the
two offset cells stay on the grid in the decoded direction. -/
def writesInGrid (R C : Nat) (a : Nat) : Prop :=
  a / 4 / C < R ∧ a / 4 % C < C ∧
  (if a % 4 = 0 then 2 ≤ a / 4 / C
   else if a % 4 = 1 then a / 4 / C + 2 < R
   else if a % 4 = 2 then 2 ≤ a / 4 % C
   else a / 4 % C + 2 < C)

/-- The three writes of `step`'s mutation, unrolled on the in-bounds model:
source cleared, jumped-over cell cleared, landing cell occupied. -/
def postBoard (C : Nat) (b : Board) (a : Nat) : Board :=
  setN (setN (setN b (srcPos C a).1 (srcPos C a).2 0)
    (jumpedPos C a).1 (jumpedPos C a).2 0)
    (landPos C a).1 (landPos C a).2 1

/-- The cell `k` steps away from `(i, j)` in direction `d`
(`0` up, `1` down, `2` left, `3` right), in signed coordinates. -/
def stepTo (i j d k : Nat) : Int × Int :=
  if d = 0 then ((i : Int) - k, (j : Int))
  else if d = 1 then ((i : Int) + k, (j : Int))
  else if d = 2 then ((i : Int), (j : Int) - k)
  else ((i : Int), (j : Int) + k)

/-- A signed coordinate pair lies within the `R×C` grid. -/
def inGrid (R C : Nat) (p : Int × Int) : Prop :=
  0 ≤ p.1 ∧ p.1 < (R : Int) ∧ 0 ≤ p.2 ∧ p.2 < (C : Int)

/-- Cell read at a signed coordinate pair (only used under `inGrid`). -/
def cellI (b : Board) (p : Int × Int) : Nat := cell b p.1.toNat p.2.toNat

/-- The per-direction legality rule in the spec's words, for source `(i,j)` and
direction `d`: the source cell is occupied, the cell two steps away lies
within grid bounds, the cell one step away is occupied, and the cell two
steps away is empty. -/
def legalSpec (R C : Nat) (b : Board) (i j d : Nat) : Prop :=
  cell b i j = 1 ∧ inGrid R C (stepTo i j d 2) ∧
  cellI b (stepTo i j d 1) = 1 ∧ cellI b (stepTo i j d 2) = 0

instance (R C : Nat) (b : Board) (i j d : Nat) : Decidable (legalSpec R C b i j d) := by
  unfold legalSpec inGrid; infer_instance

instance (R C : Nat) (b : Board) : Decidable (Shape R C b) := by
  unfold Shape; infer_instance

instance (R C : Nat) (b : Board) : Decidable (WF R C b) := by
  unfold WF; infer_instance

instance (R C a : Nat) : Decidable (writesInGrid R C a) := by
  unfold writesInGrid; infer_instance

/-! ## Basic facts about the board model -/

theorem length_setN (b : Board) (i j v : Nat) : (setN b i j v).length = b.length :=
  List.length_set ..

theorem rowLen_of_shape {R C : Nat} {b : Board} (h : Shape R C b) {i : Nat} (hi : i < R) :
    (b.getD i []).length = C := by
  have hlen : i < b.length := by rw [h.1]; exact hi
  have hmem : b.getD i [] ∈ b := by
    rw [List.getD_eq_getElem?_getD, List.getElem?_eq_getElem hlen]
    exact List.getElem_mem hlen
  exact h.2 _ hmem

theorem cell_setN_self (b : Board) (i j v : Nat) (hi : i < b.length)
    (hj : j < (b.getD i []).length) : cell (setN b i j v) i j = v := by
  simp [cell, setN, List.getD_eq_getElem?_getD, List.getElem?_set_self hi,
    List.getElem?_set_self (by simpa [List.getD_eq_getElem?_getD] using hj)]

theorem cell_setN_ne (b : Board) (i j v i' j' : Nat) (h : ¬(i = i' ∧ j = j')) :
    cell (setN b i j v) i' j' = cell b i' j' := by
  by_cases hi : i = i'
  · subst hi
    have hj : j ≠ j' := fun hjj => h ⟨rfl, hjj⟩
    by_cases hlen : i < b.length
    · simp [cell, setN, List.getD_eq_getElem?_getD, List.getElem?_set_self hlen,
        List.getElem?_set_ne hj]
    · rw [setN, List.set_eq_of_length_le (Nat.le_of_not_lt hlen)]
  · simp [cell, setN, List.getD_eq_getElem?_getD, List.getElem?_set_ne hi]

theorem shape_setN {R C : Nat} {b : Board} (h : Shape R C b) (i j v : Nat) :
    Shape R C (setN b i j v) := by
  by_cases hlen : i < b.length
  · refine ⟨by rw [length_setN, h.1], fun row hrow => ?_⟩
    rcases List.mem_or_eq_of_mem_set hrow with hmem | heq
    · exact h.2 _ hmem
    · rw [heq, List.length_set]
      have : b.getD i [] ∈ b := by
        rw [List.getD_eq_getElem?_getD, List.getElem?_eq_getElem hlen]
        exact List.getElem_mem hlen
      exact h.2 _ this
  · rw [setN, List.set_eq_of_length_le (Nat.le_of_not_lt hlen)]
    exact h

theorem wf_setN {R C : Nat} {b : Board} (h : WF R C b) (i j v : Nat) (hv : v = 0 ∨ v = 1) :
    WF R C (setN b i j v) := by
  refine ⟨shape_setN h.1 i j v, fun row hrow x hx => ?_⟩
  rcases List.mem_or_eq_of_mem_set hrow with hmem | heq
  · exact h.2 _ hmem _ hx
  · subst heq
    rcases List.mem_or_eq_of_mem_set hx with hmem | heq
    · by_cases hlen : i < b.length
      · have : b.getD i [] ∈ b := by
          rw [List.getD_eq_getElem?_getD, List.getElem?_eq_getElem hlen]
          exact List.getElem_mem hlen
        exact h.2 _ this _ hmem
      · rw [List.getD_eq_getElem?_getD, List.getElem?_eq_none (by omega)] at hmem
        simp at hmem
    · subst heq; exact hv

theorem sum_set_nat (l : List Nat) (j v : Nat) (hj : j < l.length) :
    (l.set j v).sum + l.getD j 0 = l.sum + v := by
  induction l generalizing j with
  | nil => simp at hj
  | cons a t ih =>
    cases j with
    | zero => simp [List.set]; omega
    | succ j =>
      simp only [List.set, List.sum_cons, List.getD_cons_succ]
      have := ih j (by simpa using hj)
      omega

theorem boardSum_setN (b : Board) (i j v : Nat) (hi : i < b.length)
    (hj : j < (b.getD i []).length) :
    boardSum (setN b i j v) + cell b i j = boardSum b + v := by
  induction b generalizing i with
  | nil => simp at hi
  | cons r t ih =>
    cases i with
    | zero =>
      simp only [setN, List.getD_cons_zero, List.set, boardSum, List.map_cons,
        List.sum_cons, cell] at *
      have := sum_set_nat r j v hj
      omega
    | succ i =>
      have hss : setN (r :: t) (i+1) j v = r :: setN t i j v := by
        simp [setN, List.set, List.getD_cons_succ]
      rw [hss]
      simp only [boardSum, List.map_cons, List.sum_cons, cell, List.getD_cons_succ] at *
      have := ih i (by simpa using hi) (by simpa using hj)
      omega

theorem npIdx_natCast (n i : Nat) (h : i < n) : npIdx n (i : Int) = some i := by
  have h0 : (0 : Int) ≤ (i : Int) := Int.natCast_nonneg i
  have h1 : (i : Int) < (n : Int) := by exact_mod_cast h
  simp [npIdx, h0, h1]

theorem npSet_nat (b : Board) (i j v : Nat) (hi : i < b.length)
    (hj : j < (b.getD i []).length) :
    npSet b (i : Int) (j : Int) v = some (setN b i j v) := by
  have hj' : j < (b[i]?.getD []).length := by rw [← List.getD_eq_getElem?_getD]; exact hj
  simp [npSet, npIdx_natCast _ _ hi, npIdx_natCast _ _ hj', cell, setN,
    List.getD_eq_getElem?_getD]

/-! ## Characterizing the legal-action scan -/

theorem mem_guard {α : Type} {p q : Prop} [Decidable p] [Decidable q] {x a : α} :
    a ∈ (if p then (if q then [x] else []) else ([] : List α)) ↔ p ∧ q ∧ a = x := by
  split_ifs <;> simp_all

theorem mem_cellMoves {R C : Nat} {b : Board} {i j a : Nat} :
    a ∈ cellMoves R C b i j ↔ ∃ d, a = (i*C+j)*4 + d ∧ dirOK R C b i j d := by
  by_cases hc : cell b i j = 1
  · simp only [cellMoves, hc, if_true, List.mem_append, mem_guard]
    constructor
    · rintro (((⟨h1, h2, rfl⟩ | ⟨h1, h2, rfl⟩) | ⟨h1, h2, rfl⟩) | ⟨h1, h2, rfl⟩)
      · exact ⟨0, rfl, hc, Or.inl ⟨rfl, h1.1, h1.2, h2.1, h2.2⟩⟩
      · exact ⟨1, rfl, hc, Or.inr (Or.inl ⟨rfl, h1, h2.1, h2.2⟩)⟩
      · exact ⟨2, rfl, hc, Or.inr (Or.inr (Or.inl ⟨rfl, h1.1, h1.2, h2.1, h2.2⟩))⟩
      · exact ⟨3, rfl, hc, Or.inr (Or.inr (Or.inr ⟨rfl, h1, h2.1, h2.2⟩))⟩
    · rintro ⟨d, rfl, _, (⟨rfl, g1, g2, g3, g4⟩ | ⟨rfl, g1, g2, g3⟩ |
        ⟨rfl, g1, g2, g3, g4⟩ | ⟨rfl, g1, g2, g3⟩)⟩
      · exact Or.inl (Or.inl (Or.inl ⟨⟨g1, g2⟩, ⟨g3, g4⟩, rfl⟩))
      · exact Or.inl (Or.inl (Or.inr ⟨g1, ⟨g2, g3⟩, rfl⟩))
      · exact Or.inl (Or.inr ⟨⟨g1, g2⟩, ⟨g3, g4⟩, rfl⟩)
      · exact Or.inr ⟨g1, ⟨g2, g3⟩, rfl⟩
  · simp only [cellMoves, hc, if_false]
    simp only [List.not_mem_nil, false_iff]
    rintro ⟨d, rfl, hc', _⟩
    exact hc hc'

theorem mem_get_legal_actions {R C : Nat} {b : Board} {a : Nat} :
    a ∈ get_legal_actions R C b ↔
      ∃ i j d, i < R ∧ j < C ∧ a = (i*C+j)*4 + d ∧ dirOK R C b i j d := by
  simp only [get_legal_actions, List.mem_flatMap, List.mem_range, mem_cellMoves]
  constructor
  · rintro ⟨i, hi, j, hj, d, rfl, hd⟩
    exact ⟨i, j, d, hi, hj, rfl, hd⟩
  · rintro ⟨i, j, d, hi, hj, rfl, hd⟩
    exact ⟨i, hi, j, hj, d, rfl, hd⟩

theorem dirOK_d_lt {R C : Nat} {b : Board} {i j d : Nat} (h : dirOK R C b i j d) :
    d < 4 := by
  rcases h.2 with ⟨rfl, _⟩ | ⟨rfl, _⟩ | ⟨rfl, _⟩ | ⟨rfl, _⟩ <;> omega

theorem decode_encode (C i j d : Nat) (hj : j < C) (hd : d < 4) :
    ((i*C+j)*4 + d) % 4 = d ∧ ((i*C+j)*4 + d) / 4 = i*C+j ∧
    ((i*C+j)*4 + d) / 4 / C = i ∧ ((i*C+j)*4 + d) / 4 % C = j := by
  have hC : 0 < C := by omega
  have h1 : ((i*C+j)*4 + d) % 4 = d := by
    have := Nat.mul_add_mod (i*C+j) 4 d
    omega
  have h2 : ((i*C+j)*4 + d) / 4 = i*C+j := by omega
  refine ⟨h1, h2, ?_, ?_⟩
  · rw [h2, Nat.mul_comm i C, Nat.mul_add_div hC, Nat.div_eq_of_lt hj, Nat.add_zero]
  · rw [h2, Nat.mul_comm i C, Nat.mul_add_mod, Nat.mod_eq_of_lt hj]

theorem encode_inj {C i j d x y e : Nat} (hj : j < C) (hy : y < C) (hd : d < 4) (he : e < 4)
    (h : (i*C+j)*4 + d = (x*C+y)*4 + e) : i = x ∧ j = y ∧ d = e := by
  have h1 := decode_encode C i j d hj hd
  have h2 := decode_encode C x y e hy he
  rw [h] at h1
  exact ⟨h1.2.2.1.symm.trans h2.2.2.1, h1.2.2.2.symm.trans h2.2.2.2,
    h1.1.symm.trans h2.1⟩

theorem srcPos_encode {C i j d : Nat} (hj : j < C) (hd : d < 4) :
    srcPos C ((i*C+j)*4 + d) = (i, j) := by
  have h := decode_encode C i j d hj hd
  simp [srcPos, h.2.2.1, h.2.2.2]

theorem writesInGrid_iff {R C a : Nat} : writesInGrid R C a ↔
    a/4/C < R ∧ a/4%C < C ∧
    ((a % 4 = 0 ∧ 2 ≤ a/4/C) ∨ (a % 4 = 1 ∧ a/4/C + 2 < R) ∨
     (a % 4 = 2 ∧ 2 ≤ a/4%C) ∨ (a % 4 = 3 ∧ a/4%C + 2 < C)) := by
  unfold writesInGrid
  generalize a / 4 / C = X
  generalize a / 4 % C = Y
  split_ifs with h0 h1 h2 <;> omega

theorem legal_action_facts {R C : Nat} {b : Board} {a : Nat}
    (h : a ∈ get_legal_actions R C b) :
    writesInGrid R C a ∧
    cell b (srcPos C a).1 (srcPos C a).2 = 1 ∧
    cell b (jumpedPos C a).1 (jumpedPos C a).2 = 1 ∧
    cell b (landPos C a).1 (landPos C a).2 = 0 ∧
    a < R * C * 4 := by
  rcases mem_get_legal_actions.mp h with ⟨i, j, d, hi, hj, rfl, hok⟩
  have hd : d < 4 := dirOK_d_lt hok
  have hdec := decode_encode C i j d hj hd
  have hsrc : srcPos C ((i*C+j)*4 + d) = (i, j) := srcPos_encode hj hd
  have hbound : (i*C+j) * 4 + d < R * C * 4 := by
    have h1 : i*C + j < (i+1) * C := by
      have : (i+1) * C = i*C + C := by ring
      omega
    have h2 : (i+1) * C ≤ R * C := Nat.mul_le_mul_right C (by omega)
    have hA : i*C + j < R*C := lt_of_lt_of_le h1 h2
    omega
  have hcsrc : cell b i j = 1 := hok.1
  rcases hok.2 with ⟨hd0, g1, g2, g3, g4⟩ | ⟨hd0, g1, g2, g3⟩ |
    ⟨hd0, g1, g2, g3, g4⟩ | ⟨hd0, g1, g2, g3⟩
  · subst hd0
    have hm : ((i*C+j)*4) % 4 = 0 := by omega
    have hsrc0 : srcPos C ((i*C+j)*4) = (i, j) := by simpa using hsrc
    have hjp : jumpedPos C ((i*C+j)*4 + 0) = (i-1, j) := by
      simp [jumpedPos, hm, hsrc0]
    have hlp : landPos C ((i*C+j)*4 + 0) = (i-2, j) := by
      simp [landPos, hm, hsrc0]
    refine ⟨?_, ?_, ?_, ?_, hbound⟩
    · rw [writesInGrid_iff, hdec.2.2.1, hdec.2.2.2, hdec.1]
      exact ⟨hi, hj, Or.inl ⟨rfl, g1⟩⟩
    · rw [hsrc]; exact hcsrc
    · rw [hjp]; exact g3
    · rw [hlp]; exact g4
  · subst hd0
    have hjp : jumpedPos C ((i*C+j)*4 + 1) = (i+1, j) := by
      simp [jumpedPos, hdec.1, hsrc]
    have hlp : landPos C ((i*C+j)*4 + 1) = (i+2, j) := by
      simp [landPos, hdec.1, hsrc]
    refine ⟨?_, ?_, ?_, ?_, hbound⟩
    · rw [writesInGrid_iff, hdec.2.2.1, hdec.2.2.2, hdec.1]
      exact ⟨hi, hj, Or.inr (Or.inl ⟨rfl, g1⟩)⟩
    · rw [hsrc]; exact hcsrc
    · rw [hjp]; exact g2
    · rw [hlp]; exact g3
  · subst hd0
    have hjp : jumpedPos C ((i*C+j)*4 + 2) = (i, j-1) := by
      simp [jumpedPos, hdec.1, hsrc]
    have hlp : landPos C ((i*C+j)*4 + 2) = (i, j-2) := by
      simp [landPos, hdec.1, hsrc]
    refine ⟨?_, ?_, ?_, ?_, hbound⟩
    · rw [writesInGrid_iff, hdec.2.2.1, hdec.2.2.2, hdec.1]
      exact ⟨hi, hj, Or.inr (Or.inr (Or.inl ⟨rfl, g1⟩))⟩
    · rw [hsrc]; exact hcsrc
    · rw [hjp]; exact g3
    · rw [hlp]; exact g4
  · subst hd0
    have hjp : jumpedPos C ((i*C+j)*4 + 3) = (i, j+1) := by
      simp [jumpedPos, hdec.1, hsrc]
    have hlp : landPos C ((i*C+j)*4 + 3) = (i, j+2) := by
      simp [landPos, hdec.1, hsrc]
    refine ⟨?_, ?_, ?_, ?_, hbound⟩
    · rw [writesInGrid_iff, hdec.2.2.1, hdec.2.2.2, hdec.1]
      exact ⟨hi, hj, Or.inr (Or.inr (Or.inr ⟨rfl, g1⟩))⟩
    · rw [hsrc]; exact hcsrc
    · rw [hjp]; exact g2
    · rw [hlp]; exact g3

theorem stepMutate_eq_postBoard {R C : Nat} {b : Board} {a : Nat}
    (hs : Shape R C b) (hw : writesInGrid R C a) :
    stepMutate C b a = some (postBoard C b a) := by
  obtain ⟨hx, hy, hdir⟩ := hw
  have hxb : a / 4 / C < b.length := by rw [hs.1]; exact hx
  have h1 : npSet b ((a/4/C : Nat) : Int) ((a/4%C : Nat) : Int) 0 =
      some (setN b (a/4/C) (a/4%C) 0) :=
    npSet_nat _ _ _ _ hxb (by rw [rowLen_of_shape hs hx]; exact hy)
  have hs1 : Shape R C (setN b (a/4/C) (a/4%C) 0) := shape_setN hs _ _ _
  rcases (show a % 4 = 0 ∨ a % 4 = 1 ∨ a % 4 = 2 ∨ a % 4 = 3 from by omega) with
    hd | hd | hd | hd
  · rw [hd] at hdir; norm_num at hdir
    have e1 : ((a/4/C : Nat) : Int) - 1 = ((a/4/C - 1 : Nat) : Int) := by omega
    have e2 : ((a/4/C : Nat) : Int) - 2 = ((a/4/C - 2 : Nat) : Int) := by omega
    have h2 : npSet (setN b (a/4/C) (a/4%C) 0) (((a/4/C : Nat) : Int) - 1)
        ((a/4%C : Nat) : Int) 0 =
        some (setN (setN b (a/4/C) (a/4%C) 0) (a/4/C - 1) (a/4%C) 0) := by
      rw [e1]
      exact npSet_nat _ _ _ _ (by rw [hs1.1]; omega)
        (by rw [rowLen_of_shape hs1 (show a/4/C - 1 < R by omega)]; exact hy)
    have hs2 : Shape R C (setN (setN b (a/4/C) (a/4%C) 0) (a/4/C - 1) (a/4%C) 0) :=
      shape_setN hs1 _ _ _
    have h3 : npSet (setN (setN b (a/4/C) (a/4%C) 0) (a/4/C - 1) (a/4%C) 0)
        (((a/4/C : Nat) : Int) - 2) ((a/4%C : Nat) : Int) 1 =
        some (setN (setN (setN b (a/4/C) (a/4%C) 0) (a/4/C - 1) (a/4%C) 0)
          (a/4/C - 2) (a/4%C) 1) := by
      rw [e2]
      exact npSet_nat _ _ _ _ (by rw [hs2.1]; omega)
        (by rw [rowLen_of_shape hs2 (show a/4/C - 2 < R by omega)]; exact hy)
    have hjp : jumpedPos C a = (a/4/C - 1, a/4%C) := by
      unfold jumpedPos srcPos
      rw [if_pos hd]
    have hlp : landPos C a = (a/4/C - 2, a/4%C) := by
      unfold landPos srcPos
      rw [if_pos hd]
    simp only [stepMutate, Option.bind_eq_bind]
    rw [h1, Option.some_bind]
    rw [if_pos hd]
    rw [h2, Option.some_bind, h3]
    unfold postBoard
    rw [hjp, hlp]
    rfl
  · rw [hd] at hdir; norm_num at hdir
    have e1 : ((a/4/C : Nat) : Int) + 1 = ((a/4/C + 1 : Nat) : Int) := by omega
    have e2 : ((a/4/C : Nat) : Int) + 2 = ((a/4/C + 2 : Nat) : Int) := by omega
    have h2 : npSet (setN b (a/4/C) (a/4%C) 0) (((a/4/C : Nat) : Int) + 1)
        ((a/4%C : Nat) : Int) 0 =
        some (setN (setN b (a/4/C) (a/4%C) 0) (a/4/C + 1) (a/4%C) 0) := by
      rw [e1]
      exact npSet_nat _ _ _ _ (by rw [hs1.1]; omega)
        (by rw [rowLen_of_shape hs1 (show a/4/C + 1 < R by omega)]; exact hy)
    have hs2 : Shape R C (setN (setN b (a/4/C) (a/4%C) 0) (a/4/C + 1) (a/4%C) 0) :=
      shape_setN hs1 _ _ _
    have h3 : npSet (setN (setN b (a/4/C) (a/4%C) 0) (a/4/C + 1) (a/4%C) 0)
        (((a/4/C : Nat) : Int) + 2) ((a/4%C : Nat) : Int) 1 =
        some (setN (setN (setN b (a/4/C) (a/4%C) 0) (a/4/C + 1) (a/4%C) 0)
          (a/4/C + 2) (a/4%C) 1) := by
      rw [e2]
      exact npSet_nat _ _ _ _ (by rw [hs2.1]; omega)
        (by rw [rowLen_of_shape hs2 (show a/4/C + 2 < R by omega)]; exact hy)
    have hjp : jumpedPos C a = (a/4/C + 1, a/4%C) := by
      unfold jumpedPos srcPos
      rw [if_neg (show ¬ a % 4 = 0 by omega)]; rw [if_pos hd]
    have hlp : landPos C a = (a/4/C + 2, a/4%C) := by
      unfold landPos srcPos
      rw [if_neg (show ¬ a % 4 = 0 by omega)]; rw [if_pos hd]
    simp only [stepMutate, Option.bind_eq_bind]
    rw [h1, Option.some_bind]
    rw [if_neg (show ¬ a % 4 = 0 by omega)]; rw [if_pos hd]
    rw [h2, Option.some_bind, h3]
    unfold postBoard
    rw [hjp, hlp]
    rfl
  · rw [hd] at hdir; norm_num at hdir
    have e1 : ((a/4%C : Nat) : Int) - 1 = ((a/4%C - 1 : Nat) : Int) := by omega
    have e2 : ((a/4%C : Nat) : Int) - 2 = ((a/4%C - 2 : Nat) : Int) := by omega
    have h2 : npSet (setN b (a/4/C) (a/4%C) 0) ((a/4/C : Nat) : Int)
        (((a/4%C : Nat) : Int) - 1) 0 =
        some (setN (setN b (a/4/C) (a/4%C) 0) (a/4/C) (a/4%C - 1) 0) := by
      rw [e1]
      exact npSet_nat _ _ _ _ (by rw [hs1.1]; exact hx)
        (by rw [rowLen_of_shape hs1 hx]; omega)
    have hs2 : Shape R C (setN (setN b (a/4/C) (a/4%C) 0) (a/4/C) (a/4%C - 1) 0) :=
      shape_setN hs1 _ _ _
    have h3 : npSet (setN (setN b (a/4/C) (a/4%C) 0) (a/4/C) (a/4%C - 1) 0)
        ((a/4/C : Nat) : Int) (((a/4%C : Nat) : Int) - 2) 1 =
        some (setN (setN (setN b (a/4/C) (a/4%C) 0) (a/4/C) (a/4%C - 1) 0)
          (a/4/C) (a/4%C - 2) 1) := by
      rw [e2]
      exact npSet_nat _ _ _ _ (by rw [hs2.1]; exact hx)
        (by rw [rowLen_of_shape hs2 hx]; omega)
    have hjp : jumpedPos C a = (a/4/C, a/4%C - 1) := by
      unfold jumpedPos srcPos
      rw [if_neg (show ¬ a % 4 = 0 by omega)]; rw [if_neg (show ¬ a % 4 = 1 by omega)]; rw [if_pos hd]
    have hlp : landPos C a = (a/4/C, a/4%C - 2) := by
      unfold landPos srcPos
      rw [if_neg (show ¬ a % 4 = 0 by omega)]; rw [if_neg (show ¬ a % 4 = 1 by omega)]; rw [if_pos hd]
    simp only [stepMutate, Option.bind_eq_bind]
    rw [h1, Option.some_bind]
    rw [if_neg (show ¬ a % 4 = 0 by omega)]; rw [if_neg (show ¬ a % 4 = 1 by omega)]; rw [if_pos hd]
    rw [h2, Option.some_bind, h3]
    unfold postBoard
    rw [hjp, hlp]
    rfl
  · rw [hd] at hdir; norm_num at hdir
    have e1 : ((a/4%C : Nat) : Int) + 1 = ((a/4%C + 1 : Nat) : Int) := by omega
    have e2 : ((a/4%C : Nat) : Int) + 2 = ((a/4%C + 2 : Nat) : Int) := by omega
    have h2 : npSet (setN b (a/4/C) (a/4%C) 0) ((a/4/C : Nat) : Int)
        (((a/4%C : Nat) : Int) + 1) 0 =
        some (setN (setN b (a/4/C) (a/4%C) 0) (a/4/C) (a/4%C + 1) 0) := by
      rw [e1]
      exact npSet_nat _ _ _ _ (by rw [hs1.1]; exact hx)
        (by rw [rowLen_of_shape hs1 hx]; omega)
    have hs2 : Shape R C (setN (setN b (a/4/C) (a/4%C) 0) (a/4/C) (a/4%C + 1) 0) :=
      shape_setN hs1 _ _ _
    have h3 : npSet (setN (setN b (a/4/C) (a/4%C) 0) (a/4/C) (a/4%C + 1) 0)
        ((a/4/C : Nat) : Int) (((a/4%C : Nat) : Int) + 2) 1 =
        some (setN (setN (setN b (a/4/C) (a/4%C) 0) (a/4/C) (a/4%C + 1) 0)
          (a/4/C) (a/4%C + 2) 1) := by
      rw [e2]
      exact npSet_nat _ _ _ _ (by rw [hs2.1]; exact hx)
        (by rw [rowLen_of_shape hs2 hx]; omega)
    have hjp : jumpedPos C a = (a/4/C, a/4%C + 1) := by
      unfold jumpedPos srcPos
      rw [if_neg (show ¬ a % 4 = 0 by omega)]; rw [if_neg (show ¬ a % 4 = 1 by omega)]; rw [if_neg (show ¬ a % 4 = 2 by omega)]
    have hlp : landPos C a = (a/4/C, a/4%C + 2) := by
      unfold landPos srcPos
      rw [if_neg (show ¬ a % 4 = 0 by omega)]; rw [if_neg (show ¬ a % 4 = 1 by omega)]; rw [if_neg (show ¬ a % 4 = 2 by omega)]
    simp only [stepMutate, Option.bind_eq_bind]
    rw [h1, Option.some_bind]
    rw [if_neg (show ¬ a % 4 = 0 by omega)]; rw [if_neg (show ¬ a % 4 = 1 by omega)]; rw [if_neg (show ¬ a % 4 = 2 by omega)]; rw [if_pos hd]
    rw [h2, Option.some_bind, h3]
    unfold postBoard
    rw [hjp, hlp]
    rfl

theorem jumpedPos_eq0 {C a : Nat} (hd : a % 4 = 0) :
    jumpedPos C a = (a/4/C - 1, a/4%C) := by
  unfold jumpedPos srcPos; rw [if_pos hd]

theorem jumpedPos_eq1 {C a : Nat} (hd : a % 4 = 1) :
    jumpedPos C a = (a/4/C + 1, a/4%C) := by
  unfold jumpedPos srcPos
  rw [if_neg (show ¬ a % 4 = 0 by omega), if_pos hd]

theorem jumpedPos_eq2 {C a : Nat} (hd : a % 4 = 2) :
    jumpedPos C a = (a/4/C, a/4%C - 1) := by
  unfold jumpedPos srcPos
  rw [if_neg (show ¬ a % 4 = 0 by omega), if_neg (show ¬ a % 4 = 1 by omega), if_pos hd]

theorem jumpedPos_eq3 {C a : Nat} (hd : a % 4 = 3) :
    jumpedPos C a = (a/4/C, a/4%C + 1) := by
  unfold jumpedPos srcPos
  rw [if_neg (show ¬ a % 4 = 0 by omega), if_neg (show ¬ a % 4 = 1 by omega),
    if_neg (show ¬ a % 4 = 2 by omega)]

theorem landPos_eq0 {C a : Nat} (hd : a % 4 = 0) :
    landPos C a = (a/4/C - 2, a/4%C) := by
  unfold landPos srcPos; rw [if_pos hd]

theorem landPos_eq1 {C a : Nat} (hd : a % 4 = 1) :
    landPos C a = (a/4/C + 2, a/4%C) := by
  unfold landPos srcPos
  rw [if_neg (show ¬ a % 4 = 0 by omega), if_pos hd]

theorem landPos_eq2 {C a : Nat} (hd : a % 4 = 2) :
    landPos C a = (a/4/C, a/4%C - 2) := by
  unfold landPos srcPos
  rw [if_neg (show ¬ a % 4 = 0 by omega), if_neg (show ¬ a % 4 = 1 by omega), if_pos hd]

theorem landPos_eq3 {C a : Nat} (hd : a % 4 = 3) :
    landPos C a = (a/4/C, a/4%C + 2) := by
  unfold landPos srcPos
  rw [if_neg (show ¬ a % 4 = 0 by omega), if_neg (show ¬ a % 4 = 1 by omega),
    if_neg (show ¬ a % 4 = 2 by omega)]

theorem positions_of_writesInGrid {R C a : Nat} (hw : writesInGrid R C a) :
    (srcPos C a).1 < R ∧ (srcPos C a).2 < C ∧
    (jumpedPos C a).1 < R ∧ (jumpedPos C a).2 < C ∧
    (landPos C a).1 < R ∧ (landPos C a).2 < C ∧
    srcPos C a ≠ jumpedPos C a ∧ srcPos C a ≠ landPos C a ∧
    jumpedPos C a ≠ landPos C a := by
  rw [writesInGrid_iff] at hw
  obtain ⟨hx, hy, hc⟩ := hw
  rcases hc with ⟨hd, hg⟩ | ⟨hd, hg⟩ | ⟨hd, hg⟩ | ⟨hd, hg⟩
  · rw [jumpedPos_eq0 hd, landPos_eq0 hd]
    unfold srcPos
    refine ⟨hx, hy, by omega, hy, by omega, hy, ?_, ?_, ?_⟩ <;>
      simp only [ne_eq, Prod.mk.injEq, not_and] <;> omega
  · rw [jumpedPos_eq1 hd, landPos_eq1 hd]
    unfold srcPos
    refine ⟨hx, hy, by omega, hy, by omega, hy, ?_, ?_, ?_⟩ <;>
      simp only [ne_eq, Prod.mk.injEq, not_and] <;> omega
  · rw [jumpedPos_eq2 hd, landPos_eq2 hd]
    unfold srcPos
    refine ⟨hx, hy, hx, by omega, hx, by omega, ?_, ?_, ?_⟩ <;>
      simp only [ne_eq, Prod.mk.injEq, not_and] <;> omega
  · rw [jumpedPos_eq3 hd, landPos_eq3 hd]
    unfold srcPos
    refine ⟨hx, hy, hx, by omega, hx, by omega, ?_, ?_, ?_⟩ <;>
      simp only [ne_eq, Prod.mk.injEq, not_and] <;> omega

theorem triple_set_spec {R C : Nat} {b : Board} (hwf : WF R C b)
    {x1 y1 x2 y2 x3 y3 : Nat}
    (hx1 : x1 < R) (hy1 : y1 < C) (hx2 : x2 < R) (hy2 : y2 < C)
    (hx3 : x3 < R) (hy3 : y3 < C)
    (h12 : ¬(x1 = x2 ∧ y1 = y2)) (h13 : ¬(x1 = x3 ∧ y1 = y3))
    (h23 : ¬(x2 = x3 ∧ y2 = y3)) :
    cell (setN (setN (setN b x1 y1 0) x2 y2 0) x3 y3 1) x1 y1 = 0 ∧
    cell (setN (setN (setN b x1 y1 0) x2 y2 0) x3 y3 1) x2 y2 = 0 ∧
    cell (setN (setN (setN b x1 y1 0) x2 y2 0) x3 y3 1) x3 y3 = 1 ∧
    (∀ i j : Nat, ¬(i = x1 ∧ j = y1) → ¬(i = x2 ∧ j = y2) → ¬(i = x3 ∧ j = y3) →
      cell (setN (setN (setN b x1 y1 0) x2 y2 0) x3 y3 1) i j = cell b i j) ∧
    (cell b x1 y1 = 1 → cell b x2 y2 = 1 → cell b x3 y3 = 0 →
      boardSum (setN (setN (setN b x1 y1 0) x2 y2 0) x3 y3 1) + 1 = boardSum b) ∧
    WF R C (setN (setN (setN b x1 y1 0) x2 y2 0) x3 y3 1) := by
  obtain ⟨hs, hvals⟩ := hwf
  have hb1 : x1 < b.length := by rw [hs.1]; exact hx1
  have hrow1 : y1 < (b.getD x1 []).length := by rw [rowLen_of_shape hs hx1]; exact hy1
  have hsh1 : Shape R C (setN b x1 y1 0) := shape_setN hs _ _ _
  have hb2 : x2 < (setN b x1 y1 0).length := by rw [hsh1.1]; exact hx2
  have hrow2 : y2 < ((setN b x1 y1 0).getD x2 []).length := by
    rw [rowLen_of_shape hsh1 hx2]; exact hy2
  have hsh2 : Shape R C (setN (setN b x1 y1 0) x2 y2 0) := shape_setN hsh1 _ _ _
  have hb3 : x3 < (setN (setN b x1 y1 0) x2 y2 0).length := by rw [hsh2.1]; exact hx3
  have hrow3 : y3 < ((setN (setN b x1 y1 0) x2 y2 0).getD x3 []).length := by
    rw [rowLen_of_shape hsh2 hx3]; exact hy3
  have h21 : ¬(x2 = x1 ∧ y2 = y1) := fun ⟨u, v⟩ => h12 ⟨u.symm, v.symm⟩
  have h31 : ¬(x3 = x1 ∧ y3 = y1) := fun ⟨u, v⟩ => h13 ⟨u.symm, v.symm⟩
  have h32 : ¬(x3 = x2 ∧ y3 = y2) := fun ⟨u, v⟩ => h23 ⟨u.symm, v.symm⟩
  have c1 : cell (setN (setN (setN b x1 y1 0) x2 y2 0) x3 y3 1) x1 y1 = 0 := by
    rw [cell_setN_ne _ _ _ _ _ _ h31, cell_setN_ne _ _ _ _ _ _ h21]
    exact cell_setN_self b x1 y1 0 hb1 hrow1
  have c2 : cell (setN (setN (setN b x1 y1 0) x2 y2 0) x3 y3 1) x2 y2 = 0 := by
    rw [cell_setN_ne _ _ _ _ _ _ h32]
    exact cell_setN_self _ x2 y2 0 hb2 hrow2
  have c3 : cell (setN (setN (setN b x1 y1 0) x2 y2 0) x3 y3 1) x3 y3 = 1 :=
    cell_setN_self _ x3 y3 1 hb3 hrow3
  refine ⟨c1, c2, c3, ?_, ?_, ?_⟩
  · intro i j hp1 hp2 hp3
    have hp1' : ¬(x1 = i ∧ y1 = j) := fun ⟨u, v⟩ => hp1 ⟨u.symm, v.symm⟩
    have hp2' : ¬(x2 = i ∧ y2 = j) := fun ⟨u, v⟩ => hp2 ⟨u.symm, v.symm⟩
    have hp3' : ¬(x3 = i ∧ y3 = j) := fun ⟨u, v⟩ => hp3 ⟨u.symm, v.symm⟩
    rw [cell_setN_ne _ _ _ _ _ _ hp3', cell_setN_ne _ _ _ _ _ _ hp2',
      cell_setN_ne _ _ _ _ _ _ hp1']
  · intro hv1 hv2 hv3
    have s1 := boardSum_setN b x1 y1 0 hb1 hrow1
    have s2 := boardSum_setN (setN b x1 y1 0) x2 y2 0 hb2 hrow2
    have s3 := boardSum_setN (setN (setN b x1 y1 0) x2 y2 0) x3 y3 1 hb3 hrow3
    have e2 : cell (setN b x1 y1 0) x2 y2 = 1 := by
      rw [cell_setN_ne _ _ _ _ _ _ h12]; exact hv2
    have e3 : cell (setN (setN b x1 y1 0) x2 y2 0) x3 y3 = 0 := by
      rw [cell_setN_ne _ _ _ _ _ _ h23, cell_setN_ne _ _ _ _ _ _ h13]; exact hv3
    rw [hv1] at s1; rw [e2] at s2; rw [e3] at s3
    omega
  · exact wf_setN (wf_setN (wf_setN ⟨hs, hvals⟩ _ _ _ (Or.inl rfl)) _ _ _ (Or.inl rfl))
      _ _ _ (Or.inr rfl)

theorem postBoard_spec {R C : Nat} {b : Board} {a : Nat}
    (hwf : WF R C b) (ha : a ∈ get_legal_actions R C b) :
    cell (postBoard C b a) (srcPos C a).1 (srcPos C a).2 = 0 ∧
    cell (postBoard C b a) (jumpedPos C a).1 (jumpedPos C a).2 = 0 ∧
    cell (postBoard C b a) (landPos C a).1 (landPos C a).2 = 1 ∧
    (∀ i j : Nat, (i, j) ≠ srcPos C a → (i, j) ≠ jumpedPos C a → (i, j) ≠ landPos C a →
      cell (postBoard C b a) i j = cell b i j) ∧
    boardSum (postBoard C b a) + 1 = boardSum b ∧
    WF R C (postBoard C b a) := by
  obtain ⟨hw, hc1, hc2, hc3, _⟩ := legal_action_facts ha
  obtain ⟨p1R, p1C, p2R, p2C, p3R, p3C, hne12, hne13, hne23⟩ :=
    positions_of_writesInGrid hw
  have hd12 : ¬((srcPos C a).1 = (jumpedPos C a).1 ∧ (srcPos C a).2 = (jumpedPos C a).2) :=
    fun ⟨u, v⟩ => hne12 (Prod.ext u v)
  have hd13 : ¬((srcPos C a).1 = (landPos C a).1 ∧ (srcPos C a).2 = (landPos C a).2) :=
    fun ⟨u, v⟩ => hne13 (Prod.ext u v)
  have hd23 : ¬((jumpedPos C a).1 = (landPos C a).1 ∧ (jumpedPos C a).2 = (landPos C a).2) :=
    fun ⟨u, v⟩ => hne23 (Prod.ext u v)
  obtain ⟨c1, c2, c3, hrest, hsum, hwf'⟩ :=
    triple_set_spec hwf p1R p1C p2R p2C p3R p3C hd12 hd13 hd23
  refine ⟨c1, c2, c3, ?_, hsum hc1 hc2 hc3, hwf'⟩
  intro i j hp1 hp2 hp3
  exact hrest i j (fun ⟨u, v⟩ => hp1 (Prod.ext u v))
    (fun ⟨u, v⟩ => hp2 (Prod.ext u v)) (fun ⟨u, v⟩ => hp3 (Prod.ext u v))

theorem stepTo_eq0 (i j k : Nat) : stepTo i j 0 k = ((i : Int) - k, (j : Int)) := by
  unfold stepTo; rw [if_pos rfl]

theorem stepTo_eq1 (i j k : Nat) : stepTo i j 1 k = ((i : Int) + k, (j : Int)) := by
  unfold stepTo
  rw [if_neg (by omega : ¬ (1 : Nat) = 0), if_pos rfl]

theorem stepTo_eq2 (i j k : Nat) : stepTo i j 2 k = ((i : Int), (j : Int) - k) := by
  unfold stepTo
  rw [if_neg (by omega : ¬ (2 : Nat) = 0), if_neg (by omega : ¬ (2 : Nat) = 1), if_pos rfl]

theorem stepTo_eq3 (i j k : Nat) : stepTo i j 3 k = ((i : Int), (j : Int) + k) := by
  unfold stepTo
  rw [if_neg (by omega : ¬ (3 : Nat) = 0), if_neg (by omega : ¬ (3 : Nat) = 1),
    if_neg (by omega : ¬ (3 : Nat) = 2)]

theorem legalSpec0_iff {R C : Nat} {b : Board} {i j : Nat} (hi : i < R) (hj : j < C) :
    legalSpec R C b i j 0 ↔
      cell b i j = 1 ∧ ((2 ≤ i ∧ i - 2 < R) ∧
        (cell b (i-1) j = 1 ∧ cell b (i-2) j = 0)) := by
  unfold legalSpec inGrid cellI
  rw [stepTo_eq0, stepTo_eq0]
  constructor
  · rintro ⟨hcell, hb, hc1, hc2⟩
    simp only at hb hc1 hc2
    push_cast at hc1 hc2
    rw [(by omega : ((i : Int) - 1).toNat = i - 1),
      (by omega : ((j : Int)).toNat = j)] at hc1
    rw [(by omega : ((i : Int) - 2).toNat = i - 2),
      (by omega : ((j : Int)).toNat = j)] at hc2
    exact ⟨hcell, ⟨by omega, by omega⟩, hc1, hc2⟩
  · rintro ⟨hcell, ⟨h2i, hiR⟩, hc1, hc2⟩
    refine ⟨hcell, ⟨by simp only; omega, by simp only; omega,
      by simp only; omega, by simp only; omega⟩, ?_, ?_⟩
    · simp only
      push_cast
      rw [(by omega : ((i : Int) - 1).toNat = i - 1),
        (by omega : ((j : Int)).toNat = j)]
      exact hc1
    · simp only
      push_cast
      rw [(by omega : ((i : Int) - 2).toNat = i - 2),
        (by omega : ((j : Int)).toNat = j)]
      exact hc2

theorem legalSpec1_iff {R C : Nat} {b : Board} {i j : Nat} (hi : i < R) (hj : j < C) :
    legalSpec R C b i j 1 ↔
      cell b i j = 1 ∧ ((i + 2 < R) ∧
        (cell b (i+1) j = 1 ∧ cell b (i+2) j = 0)) := by
  unfold legalSpec inGrid cellI
  rw [stepTo_eq1, stepTo_eq1]
  constructor
  · rintro ⟨hcell, hb, hc1, hc2⟩
    simp only at hb hc1 hc2
    push_cast at hc1 hc2
    rw [(by omega : ((i : Int) + 1).toNat = i + 1),
      (by omega : ((j : Int)).toNat = j)] at hc1
    rw [(by omega : ((i : Int) + 2).toNat = i + 2),
      (by omega : ((j : Int)).toNat = j)] at hc2
    exact ⟨hcell, by omega, hc1, hc2⟩
  · rintro ⟨hcell, hiR, hc1, hc2⟩
    refine ⟨hcell, ⟨by simp only; omega, by simp only; omega,
      by simp only; omega, by simp only; omega⟩, ?_, ?_⟩
    · simp only
      push_cast
      rw [(by omega : ((i : Int) + 1).toNat = i + 1),
        (by omega : ((j : Int)).toNat = j)]
      exact hc1
    · simp only
      push_cast
      rw [(by omega : ((i : Int) + 2).toNat = i + 2),
        (by omega : ((j : Int)).toNat = j)]
      exact hc2

theorem legalSpec2_iff {R C : Nat} {b : Board} {i j : Nat} (hi : i < R) (hj : j < C) :
    legalSpec R C b i j 2 ↔
      cell b i j = 1 ∧ ((2 ≤ j ∧ j - 2 < C) ∧
        (cell b i (j-1) = 1 ∧ cell b i (j-2) = 0)) := by
  unfold legalSpec inGrid cellI
  rw [stepTo_eq2, stepTo_eq2]
  constructor
  · rintro ⟨hcell, hb, hc1, hc2⟩
    simp only at hb hc1 hc2
    push_cast at hc1 hc2
    rw [(by omega : ((j : Int) - 1).toNat = j - 1),
      (by omega : ((i : Int)).toNat = i)] at hc1
    rw [(by omega : ((j : Int) - 2).toNat = j - 2),
      (by omega : ((i : Int)).toNat = i)] at hc2
    exact ⟨hcell, ⟨by omega, by omega⟩, hc1, hc2⟩
  · rintro ⟨hcell, ⟨h2j, hjC⟩, hc1, hc2⟩
    refine ⟨hcell, ⟨by simp only; omega, by simp only; omega,
      by simp only; omega, by simp only; omega⟩, ?_, ?_⟩
    · simp only
      push_cast
      rw [(by omega : ((j : Int) - 1).toNat = j - 1),
        (by omega : ((i : Int)).toNat = i)]
      exact hc1
    · simp only
      push_cast
      rw [(by omega : ((j : Int) - 2).toNat = j - 2),
        (by omega : ((i : Int)).toNat = i)]
      exact hc2

theorem legalSpec3_iff {R C : Nat} {b : Board} {i j : Nat} (hi : i < R) (hj : j < C) :
    legalSpec R C b i j 3 ↔
      cell b i j = 1 ∧ ((j + 2 < C) ∧
        (cell b i (j+1) = 1 ∧ cell b i (j+2) = 0)) := by
  unfold legalSpec inGrid cellI
  rw [stepTo_eq3, stepTo_eq3]
  constructor
  · rintro ⟨hcell, hb, hc1, hc2⟩
    simp only at hb hc1 hc2
    push_cast at hc1 hc2
    rw [(by omega : ((j : Int) + 1).toNat = j + 1),
      (by omega : ((i : Int)).toNat = i)] at hc1
    rw [(by omega : ((j : Int) + 2).toNat = j + 2),
      (by omega : ((i : Int)).toNat = i)] at hc2
    exact ⟨hcell, by omega, hc1, hc2⟩
  · rintro ⟨hcell, hjC, hc1, hc2⟩
    refine ⟨hcell, ⟨by simp only; omega, by simp only; omega,
      by simp only; omega, by simp only; omega⟩, ?_, ?_⟩
    · simp only
      push_cast
      rw [(by omega : ((j : Int) + 1).toNat = j + 1),
        (by omega : ((i : Int)).toNat = i)]
      exact hc1
    · simp only
      push_cast
      rw [(by omega : ((j : Int) + 2).toNat = j + 2),
        (by omega : ((i : Int)).toNat = i)]
      exact hc2

theorem flatMap_congr {α β : Type} {l : List α} {f g : α → List β}
    (h : ∀ x ∈ l, f x = g x) : l.flatMap f = l.flatMap g := by
  induction l with
  | nil => rfl
  | cons a t ih =>
    rw [List.flatMap_cons, List.flatMap_cons, h a (by simp),
      ih (fun x hx => h x (by simp [hx]))]

theorem filter_range4_map (P : Nat → Prop) [DecidablePred P] (f : Nat → Nat) :
    ((List.range 4).filter (fun d => decide (P d))).map f =
      (if P 0 then [f 0] else []) ++ ((if P 1 then [f 1] else []) ++
      ((if P 2 then [f 2] else []) ++ (if P 3 then [f 3] else []))) := by
  have h4 : List.range 4 = [0, 1, 2, 3] := by rfl
  rw [h4]
  by_cases h0 : P 0 <;> by_cases h1 : P 1 <;> by_cases h2 : P 2 <;> by_cases h3 : P 3 <;>
    simp [h0, h1, h2, h3, List.filter_cons]

theorem if_if_flatten {p q : Prop} [Decidable p] [Decidable q] (x : List Nat) :
    (if p then (if q then x else []) else []) = if p ∧ q then x else [] := by
  split_ifs with h1 h2 h3 <;> first | rfl | tauto

/-! ## Claim theorems -/

/-- C3: `raw_to_std` and `std_to_raw` are exact inverses over the full domain:
for every `k < R·C·4`, encoding the decoded action gives back `k`; for every
in-range `(x, y)` and direction `d < 4`, decoding the encoded action gives
back `((x, y), d)`; and `std_to_raw` computes the direction as `k % 4`, the
row as `(k / 4) / C` and the column as `(k / 4) % C`. -/
theorem raw_std_roundtrip_C3 (R C k x y d : Nat)
    (hk : k < R * C * 4) (hx : x < R) (hy : y < C) (hd : d < 4) :
    raw_to_std C (std_to_raw C k).1 (std_to_raw C k).2 = k ∧
    std_to_raw C (raw_to_std C (x, y) d) = ((x, y), d) ∧
    std_to_raw C k = ((k / 4 / C, k / 4 % C), k % 4) := by
  refine ⟨?_, ?_, rfl⟩
  · show (k/4/C * C + k/4%C) * 4 + k % 4 = k
    have h1 : k/4/C * C + k/4%C = k/4 := by
      rw [Nat.mul_comm]
      exact Nat.div_add_mod (k/4) C
    rw [h1]
    omega
  · have h := decode_encode C x y d hy hd
    show std_to_raw C ((x*C+y)*4 + d) = ((x, y), d)
    unfold std_to_raw
    rw [h.2.2.1, h.2.2.2, h.1]

theorem raw_std_roundtrip_C3_witness :
    (10 < 6 * 8 * 4 ∧ 0 < 6 ∧ 2 < 8 ∧ 2 < 4) ∧
    (raw_to_std 8 (std_to_raw 8 10).1 (std_to_raw 8 10).2 = 10 ∧
     std_to_raw 8 (raw_to_std 8 (0, 2) 2) = ((0, 2), 2) ∧
     std_to_raw 8 10 = ((10 / 4 / 8, 10 / 4 % 8), 10 % 4)) :=
  ⟨by decide, raw_std_roundtrip_C3 6 8 10 0 2 2 (by decide) (by decide) (by decide) (by decide)⟩

/-- C7: `is_end` returns `true` exactly when `get_legal_actions` is empty.
Both are pure functions of the board in this model, as in the source, where
`is_end` only reads the board through `get_legal_actions`. -/
theorem is_end_iff_C7 (R C : Nat) (b : Board) :
    is_end R C b = true ↔ get_legal_actions R C b = [] := by
  unfold is_end
  split_ifs with h <;> simp [h]

/-- C4: `get_legal_actions` returns exactly the encoded moves whose source
cell is occupied, whose cell two steps away lies in the grid, whose cell one
step away is occupied and whose cell two steps away is empty — and it
enumerates them scanning rows in order, then columns, then the four
directions up (`0`), down (`1`), left (`2`), right (`3`). -/
theorem get_legal_actions_enum_C4 (R C : Nat) (b : Board) :
    get_legal_actions R C b =
      (List.range R).flatMap (fun i => (List.range C).flatMap (fun j =>
        ((List.range 4).filter (fun d => decide (legalSpec R C b i j d))).map
          (fun d => raw_to_std C (i, j) d))) := by
  unfold get_legal_actions
  refine flatMap_congr (fun i hi => ?_)
  refine flatMap_congr (fun j hj => ?_)
  rw [List.mem_range] at hi hj
  rw [filter_range4_map]
  unfold cellMoves
  by_cases hc : cell b i j = 1
  · rw [if_pos hc, if_if_flatten, if_if_flatten, if_if_flatten, if_if_flatten]
    have i0 := (legalSpec0_iff (b := b) hi hj).trans (and_iff_right hc)
    have i1 := (legalSpec1_iff (b := b) hi hj).trans (and_iff_right hc)
    have i2 := (legalSpec2_iff (b := b) hi hj).trans (and_iff_right hc)
    have i3 := (legalSpec3_iff (b := b) hi hj).trans (and_iff_right hc)
    rw [if_congr i0.symm rfl rfl, if_congr i1.symm rfl rfl,
      if_congr i2.symm rfl rfl, if_congr i3.symm rfl rfl]
    simp only [List.append_assoc]
    rfl
  · rw [if_neg hc]
    have z0 : ¬ legalSpec R C b i j 0 := fun h => hc h.1
    have z1 : ¬ legalSpec R C b i j 1 := fun h => hc h.1
    have z2 : ¬ legalSpec R C b i j 2 := fun h => hc h.1
    have z3 : ¬ legalSpec R C b i j 3 := fun h => hc h.1
    rw [if_neg z0, if_neg z1, if_neg z2, if_neg z3]
    rfl

/-- The board `reset` builds, written out: all ones, then `(0,0)` cleared. -/
def initObs (R C : Nat) : Board :=
  setN (List.replicate R (List.replicate C 1)) 0 0 0

theorem shape_replicate (R C : Nat) :
    Shape R C (List.replicate R (List.replicate C (1 : Nat))) := by
  refine ⟨by simp, fun row hrow => ?_⟩
  rw [List.eq_of_mem_replicate hrow]
  simp

theorem cell_replicate {R C : Nat} (i j : Nat) (hi : i < R) (hj : j < C) :
    cell (List.replicate R (List.replicate C (1 : Nat))) i j = 1 := by
  simp [cell, List.getD_eq_getElem?_getD, List.getElem?_replicate, hi, hj]

theorem resetObs_eq {R C : Nat} (hR : 0 < R) (hC : 0 < C) :
    resetObs R C = some (initObs R C) := by
  have h1 : npSet (List.replicate R (List.replicate C 1)) ((0 : Nat) : Int)
      ((0 : Nat) : Int) 0 = some (initObs R C) := by
    apply npSet_nat
    · simpa using hR
    · rw [rowLen_of_shape (shape_replicate R C) hR]
      exact hC
  simpa using h1

theorem wf_initObs (R C : Nat) : WF R C (initObs R C) := by
  refine wf_setN ⟨shape_replicate R C, fun row hrow v hv => ?_⟩ 0 0 0 (Or.inl rfl)
  rw [List.eq_of_mem_replicate hrow] at hv
  exact Or.inr (List.eq_of_mem_replicate hv)

theorem boardSum_replicate (R C : Nat) :
    boardSum (List.replicate R (List.replicate C (1 : Nat))) = R * C := by
  simp [boardSum, List.map_replicate, List.sum_replicate, smul_eq_mul]

theorem boardSum_initObs {R C : Nat} (hR : 0 < R) (hC : 0 < C) :
    boardSum (initObs R C) + 1 = R * C := by
  have h := boardSum_setN (List.replicate R (List.replicate C 1)) 0 0 0
    (by simpa using hR)
    (by rw [rowLen_of_shape (shape_replicate R C) hR]; exact hC)
  rw [cell_replicate 0 0 hR hC, boardSum_replicate] at h
  unfold initObs
  omega

/-- C8: after `reset`, whatever the board held before, the board is the
all-occupied grid with the single empty cell at `(0,0)` — so `R·C − 1`
occupied cells — and the stored `legal_actions` is `get_legal_actions` of
that board. -/
theorem reset_spec_C8 (g : Game) (hR : 0 < g.ROW) (hC : 0 < g.COL) :
    ∃ g', reset g = some g' ∧
      g'.ROW = g.ROW ∧ g'.COL = g.COL ∧
      g'.state.obs = initObs g.ROW g.COL ∧
      cell g'.state.obs 0 0 = 0 ∧
      (∀ i j, i < g.ROW → j < g.COL → ¬(i = 0 ∧ j = 0) → cell g'.state.obs i j = 1) ∧
      WF g.ROW g.COL g'.state.obs ∧
      boardSum g'.state.obs + 1 = g.ROW * g.COL ∧
      g'.state.legal_actions = get_legal_actions g.ROW g.COL g'.state.obs := by
  refine ⟨{ g with state := ⟨initObs g.ROW g.COL,
    get_legal_actions g.ROW g.COL (initObs g.ROW g.COL)⟩ }, ?_, rfl, rfl, rfl,
    ?_, ?_, wf_initObs _ _, boardSum_initObs hR hC, rfl⟩
  · unfold reset resetState
    rw [resetObs_eq hR hC]
    rfl
  · exact cell_setN_self _ 0 0 0 (by simpa using hR)
      (by rw [rowLen_of_shape (shape_replicate _ _) hR]; exact hC)
  · intro i j hi hj hne
    show cell (initObs g.ROW g.COL) i j = 1
    unfold initObs
    rw [cell_setN_ne _ _ _ _ _ _ (fun ⟨u, v⟩ => hne ⟨u.symm, v.symm⟩)]
    exact cell_replicate i j hi hj

theorem reset_spec_C8_witness :
    ∃ g', reset (Game.mk 6 8 ⟨[[5]], [99]⟩) = some g' ∧
      g'.ROW = 6 ∧ g'.COL = 8 ∧
      g'.state.obs = initObs 6 8 ∧
      cell g'.state.obs 0 0 = 0 ∧
      (∀ i j, i < 6 → j < 8 → ¬(i = 0 ∧ j = 0) → cell g'.state.obs i j = 1) ∧
      WF 6 8 g'.state.obs ∧
      boardSum g'.state.obs + 1 = 6 * 8 ∧
      g'.state.legal_actions = get_legal_actions 6 8 g'.state.obs :=
  reset_spec_C8 (Game.mk 6 8 ⟨[[5]], [99]⟩) (by decide) (by decide)

/-- C5: for a well-formed 0/1 board and any action returned by
`get_legal_actions`, the mutation of `step` succeeds and flips exactly three
cells — the source becomes empty, the jumped-over cell becomes empty, the
landing cell becomes occupied, every other cell is unchanged — the total
occupied count drops by exactly one, and every cell is still 0 or 1 (the
board considered is the one right after the move, before any reset). -/
theorem step_flips_three_C5 {R C : Nat} {b : Board} {a : Nat}
    (hwf : WF R C b) (ha : a ∈ get_legal_actions R C b) :
    stepMutate C b a = some (postBoard C b a) ∧
    cell b (srcPos C a).1 (srcPos C a).2 = 1 ∧
    cell b (jumpedPos C a).1 (jumpedPos C a).2 = 1 ∧
    cell b (landPos C a).1 (landPos C a).2 = 0 ∧
    cell (postBoard C b a) (srcPos C a).1 (srcPos C a).2 = 0 ∧
    cell (postBoard C b a) (jumpedPos C a).1 (jumpedPos C a).2 = 0 ∧
    cell (postBoard C b a) (landPos C a).1 (landPos C a).2 = 1 ∧
    (∀ i j : Nat, (i, j) ≠ srcPos C a → (i, j) ≠ jumpedPos C a →
      (i, j) ≠ landPos C a → cell (postBoard C b a) i j = cell b i j) ∧
    boardSum (postBoard C b a) + 1 = boardSum b ∧
    WF R C (postBoard C b a) := by
  obtain ⟨hw, hv1, hv2, hv3, _⟩ := legal_action_facts ha
  obtain ⟨c1, c2, c3, hrest, hsum, hwf'⟩ := postBoard_spec hwf ha
  exact ⟨stepMutate_eq_postBoard hwf.1 hw, hv1, hv2, hv3, c1, c2, c3, hrest,
    hsum, hwf'⟩

theorem step_flips_three_C5_witness :
    (WF 6 8 b0 ∧ 10 ∈ get_legal_actions 6 8 b0) ∧
    (stepMutate 8 b0 10 = some (postBoard 8 b0 10) ∧
     cell b0 (srcPos 8 10).1 (srcPos 8 10).2 = 1 ∧
     cell b0 (jumpedPos 8 10).1 (jumpedPos 8 10).2 = 1 ∧
     cell b0 (landPos 8 10).1 (landPos 8 10).2 = 0 ∧
     cell (postBoard 8 b0 10) (srcPos 8 10).1 (srcPos 8 10).2 = 0 ∧
     cell (postBoard 8 b0 10) (jumpedPos 8 10).1 (jumpedPos 8 10).2 = 0 ∧
     cell (postBoard 8 b0 10) (landPos 8 10).1 (landPos 8 10).2 = 1 ∧
     (∀ i j : Nat, (i, j) ≠ srcPos 8 10 → (i, j) ≠ jumpedPos 8 10 →
       (i, j) ≠ landPos 8 10 → cell (postBoard 8 b0 10) i j = cell b0 i j) ∧
     boardSum (postBoard 8 b0 10) + 1 = boardSum b0 ∧
     WF 6 8 (postBoard 8 b0 10)) :=
  ⟨⟨by decide, by decide⟩, step_flips_three_C5 (by decide) (by decide)⟩

/-- C10: every action returned by `get_legal_actions` decodes inside
`[0, R·C·4)`, and the three cells `step` touches for it — source, one step
away, two steps away — all lie inside the grid, so on legal input the
mutation performs no out-of-bounds access and no negative-index
wrap-around (it succeeds outright). -/
theorem step_inbounds_C10 {R C : Nat} {b : Board} {a : Nat}
    (hwf : WF R C b) (ha : a ∈ get_legal_actions R C b) :
    a < R * C * 4 ∧
    (srcPos C a).1 < R ∧ (srcPos C a).2 < C ∧
    (jumpedPos C a).1 < R ∧ (jumpedPos C a).2 < C ∧
    (landPos C a).1 < R ∧ (landPos C a).2 < C ∧
    (stepMutate C b a).isSome = true := by
  obtain ⟨hw, _, _, _, hb⟩ := legal_action_facts ha
  obtain ⟨p1R, p1C, p2R, p2C, p3R, p3C, _, _, _⟩ := positions_of_writesInGrid hw
  refine ⟨hb, p1R, p1C, p2R, p2C, p3R, p3C, ?_⟩
  rw [stepMutate_eq_postBoard hwf.1 hw]
  rfl

theorem step_inbounds_C10_witness :
    (WF 6 8 b0 ∧ 64 ∈ get_legal_actions 6 8 b0) ∧
    (64 < 6 * 8 * 4 ∧
     (srcPos 8 64).1 < 6 ∧ (srcPos 8 64).2 < 8 ∧
     (jumpedPos 8 64).1 < 6 ∧ (jumpedPos 8 64).2 < 8 ∧
     (landPos 8 64).1 < 6 ∧ (landPos 8 64).2 < 8 ∧
     (stepMutate 8 b0 64).isSome = true) :=
  ⟨⟨by decide, by decide⟩, step_inbounds_C10 (by decide) (by decide)⟩

/-- The tuple `step` returns on the fresh default board for action 10
(`(0,2)` jumping left into `(0,0)`): the single shared state holds the
post-move board. -/
def r10 : GState × GState × Int × Bool × Game :=
  (⟨postBoard 8 b0 10, get_legal_actions 6 8 (postBoard 8 b0 10)⟩,
   ⟨postBoard 8 b0 10, get_legal_actions 6 8 (postBoard 8 b0 10)⟩, 0, false,
   ⟨6, 8, ⟨postBoard 8 b0 10, get_legal_actions 6 8 (postBoard 8 b0 10)⟩⟩)

/-- C1 (amended): whenever `step` succeeds, the two observation components of
the returned tuple are one and the same state — both reflect the environment
after the mutation (and after the automatic reset when the episode ended) —
because the source returns the same mutable `self.state` dict twice. -/
theorem step_alias_C1 (g : Game) (a : Nat) (r : GState × GState × Int × Bool × Game)
    (h : step g a = some r) : r.1 = r.2.1 ∧ r.1 = r.2.2.2.2.state := by
  unfold step at h
  cases hm : stepMutate g.COL g.state.obs a with
  | none =>
    rw [hm] at h
    simp at h
  | some b' =>
    rw [hm, Option.bind_eq_bind, Option.some_bind] at h
    by_cases he : is_end g.ROW g.COL b' = true
    · rw [if_pos he] at h
      cases hr : resetState g.ROW g.COL with
      | none => rw [hr] at h; simp at h
      | some s =>
        rw [hr, Option.bind_eq_bind, Option.some_bind] at h
        obtain rfl : _ = r := Option.some.inj h
        exact ⟨rfl, rfl⟩
    · rw [if_neg he] at h
      obtain rfl : _ = r := Option.some.inj h
      exact ⟨rfl, rfl⟩

theorem step_alias_C1_witness :
    step game0 10 = some r10 ∧ (r10.1 = r10.2.1 ∧ r10.1 = r10.2.2.2.2.state) :=
  ⟨by decide, step_alias_C1 game0 10 r10 (by decide)⟩

/-- C1 counterexample: action 10 (source `(0,2)`, jumping left over `(0,1)`
into `(0,0)`) is legal on the fresh board, yet the FIRST component of the
tuple `step` returns does not show the pre-move board: its source cell
`(0,2)` and jumped-over cell `(0,1)` are already empty and the landing cell
`(0,0)` already occupied, and it is equal to the second component — the two
components are not independent before/after snapshots. -/
theorem step_alias_C1_cex :
    10 ∈ get_legal_actions 6 8 b0 ∧
    step game0 10 = some r10 ∧
    cell r10.1.obs 0 2 = 0 ∧ cell r10.1.obs 0 1 = 0 ∧ cell r10.1.obs 0 0 = 1 ∧
    r10.1 = r10.2.1 := by decide

/-- C2 (amended): `step` performs no legality validation at all.  Whenever the
three cells addressed by the decoded action lie inside the grid, the mutation
succeeds and rewrites them — source cleared, jumped-over cell cleared,
landing cell set — with no requirement that the action belong to
`get_legal_actions` (and hence no `IllegalMove`-style rejection). -/
theorem step_no_validation_C2 {R C : Nat} {b : Board} {a : Nat}
    (hwf : WF R C b) (hw : writesInGrid R C a) :
    stepMutate C b a = some (postBoard C b a) ∧
    cell (postBoard C b a) (srcPos C a).1 (srcPos C a).2 = 0 ∧
    cell (postBoard C b a) (jumpedPos C a).1 (jumpedPos C a).2 = 0 ∧
    cell (postBoard C b a) (landPos C a).1 (landPos C a).2 = 1 := by
  obtain ⟨p1R, p1C, p2R, p2C, p3R, p3C, h12, h13, h23⟩ := positions_of_writesInGrid hw
  obtain ⟨c1, c2, c3, _, _, _⟩ := triple_set_spec hwf p1R p1C p2R p2C p3R p3C
    (fun ⟨u, v⟩ => h12 (Prod.ext u v)) (fun ⟨u, v⟩ => h13 (Prod.ext u v))
    (fun ⟨u, v⟩ => h23 (Prod.ext u v))
  exact ⟨stepMutate_eq_postBoard hwf.1 hw, c1, c2, c3⟩

theorem step_no_validation_C2_witness :
    (WF 6 8 b0 ∧ writesInGrid 6 8 14 ∧ 14 ∉ get_legal_actions 6 8 b0) ∧
    (stepMutate 8 b0 14 = some (postBoard 8 b0 14) ∧
     cell (postBoard 8 b0 14) (srcPos 8 14).1 (srcPos 8 14).2 = 0 ∧
     cell (postBoard 8 b0 14) (jumpedPos 8 14).1 (jumpedPos 8 14).2 = 0 ∧
     cell (postBoard 8 b0 14) (landPos 8 14).1 (landPos 8 14).2 = 1) :=
  ⟨⟨by decide, by decide, by decide⟩,
    step_no_validation_C2 (R := 6) (by decide) (by decide)⟩

/-- C2 counterexample: action 14 encodes source `(0,3)` jumping left; it is
NOT in `get_legal_actions` of the fresh board (the landing cell `(0,1)` is
occupied), yet `step` reports no error and mutates the board, clearing cells
`(0,3)` and `(0,2)`. -/
theorem step_no_validation_C2_cex :
    14 ∉ get_legal_actions 6 8 b0 ∧
    (step game0 14).isSome = true ∧
    stepMutate 8 b0 14 = some (postBoard 8 b0 14) ∧
    cell b0 0 3 = 1 ∧ cell (postBoard 8 b0 14) 0 3 = 0 ∧
    cell b0 0 2 = 1 ∧ cell (postBoard 8 b0 14) 0 2 = 0 := by decide

/-- C6: when the mutated board is terminal, `step` returns
`reward = 8 − (occupied count of the terminal board, taken before the reset)`
and `done = true`, and the environment's board is reset to the initial
configuration; otherwise it returns reward 0 and `done = false` and keeps the
mutated board. -/
theorem step_reward_done_C6 (g : Game) (a : Nat) (b' : Board)
    (hR : 0 < g.ROW) (hC : 0 < g.COL)
    (hb : stepMutate g.COL g.state.obs a = some b') :
    ∃ r : GState × GState × Int × Bool × Game, step g a = some r ∧
      (if is_end g.ROW g.COL b' = true then
        r.2.2.1 = 8 - (boardSum b' : Int) ∧ r.2.2.2.1 = true ∧
        r.2.2.2.2.state.obs = initObs g.ROW g.COL ∧
        r.2.2.2.2.state.legal_actions =
          get_legal_actions g.ROW g.COL (initObs g.ROW g.COL)
      else
        r.2.2.1 = 0 ∧ r.2.2.2.1 = false ∧
        r.2.2.2.2.state.obs = b' ∧
        r.2.2.2.2.state.legal_actions = get_legal_actions g.ROW g.COL b') := by
  by_cases he : is_end g.ROW g.COL b' = true
  · refine ⟨(⟨initObs g.ROW g.COL, get_legal_actions g.ROW g.COL (initObs g.ROW g.COL)⟩,
      ⟨initObs g.ROW g.COL, get_legal_actions g.ROW g.COL (initObs g.ROW g.COL)⟩,
      8 - (boardSum b' : Int), true,
      Game.mk g.ROW g.COL
        ⟨initObs g.ROW g.COL, get_legal_actions g.ROW g.COL (initObs g.ROW g.COL)⟩),
      ?_, ?_⟩
    · simp only [step, hb, Option.bind_eq_bind, Option.some_bind, if_pos he,
        resetState, resetObs_eq hR hC]
    · rw [if_pos he]
      exact ⟨rfl, rfl, rfl, rfl⟩
  · refine ⟨(⟨b', get_legal_actions g.ROW g.COL b'⟩,
      ⟨b', get_legal_actions g.ROW g.COL b'⟩, 0, false,
      Game.mk g.ROW g.COL ⟨b', get_legal_actions g.ROW g.COL b'⟩), ?_, ?_⟩
    · simp only [step, hb, Option.bind_eq_bind, Option.some_bind, if_neg he]
    · rw [if_neg he]
      exact ⟨rfl, rfl, rfl, rfl⟩

theorem step_reward_done_C6_witness :
    (0 < game0.ROW ∧ 0 < game0.COL ∧
     stepMutate game0.COL game0.state.obs 10 = some (postBoard 8 b0 10)) ∧
    (∃ r : GState × GState × Int × Bool × Game, step game0 10 = some r ∧
      (if is_end game0.ROW game0.COL (postBoard 8 b0 10) = true then
        r.2.2.1 = 8 - (boardSum (postBoard 8 b0 10) : Int) ∧ r.2.2.2.1 = true ∧
        r.2.2.2.2.state.obs = initObs game0.ROW game0.COL ∧
        r.2.2.2.2.state.legal_actions =
          get_legal_actions game0.ROW game0.COL (initObs game0.ROW game0.COL)
      else
        r.2.2.1 = 0 ∧ r.2.2.2.1 = false ∧
        r.2.2.2.2.state.obs = postBoard 8 b0 10 ∧
        r.2.2.2.2.state.legal_actions =
          get_legal_actions game0.ROW game0.COL (postBoard 8 b0 10))) :=
  ⟨⟨by decide, by decide, by decide⟩,
    step_reward_done_C6 game0 10 (postBoard 8 b0 10) (by decide) (by decide) (by decide)⟩

theorem jumpDest_eq0 (x y : Nat) : jumpDest x y 0 = (x - 2, y) := by
  unfold jumpDest; rw [if_pos rfl]

theorem jumpDest_eq1 (x y : Nat) : jumpDest x y 1 = (x + 2, y) := by
  unfold jumpDest
  rw [if_neg (by omega : ¬ (1 : Nat) = 0), if_pos rfl]

theorem jumpDest_eq2 (x y : Nat) : jumpDest x y 2 = (x, y - 2) := by
  unfold jumpDest
  rw [if_neg (by omega : ¬ (2 : Nat) = 0), if_neg (by omega : ¬ (2 : Nat) = 1), if_pos rfl]

theorem jumpDest_eq3 (x y : Nat) : jumpDest x y 3 = (x, y + 2) := by
  unfold jumpDest
  rw [if_neg (by omega : ¬ (3 : Nat) = 0), if_neg (by omega : ¬ (3 : Nat) = 1),
    if_neg (by omega : ¬ (3 : Nat) = 2)]

theorem encode_mem_iff {R C : Nat} {b : Board} {x y d : Nat}
    (hx : x < R) (hy : y < C) (hd : d < 4) :
    raw_to_std C (x, y) d ∈ get_legal_actions R C b ↔ dirOK R C b x y d := by
  rw [mem_get_legal_actions]
  constructor
  · rintro ⟨i, j, e, hi, hj, heq, hok⟩
    have he : e < 4 := dirOK_d_lt hok
    have heq' : (x*C+y)*4 + d = (i*C+j)*4 + e := heq
    obtain ⟨hxi, hyj, hde⟩ := encode_inj hy hj hd he heq'
    subst hxi; subst hyj; subst hde
    exact hok
  · intro hok
    exact ⟨x, y, d, hx, hy, rfl, hok⟩

theorem mem_get_legal_pos {R C : Nat} {b : Board} {x y : Nat} {q : Nat × Nat} :
    q ∈ get_legal_pos R C b (x, y) ↔
      ∃ d, q = jumpDest x y d ∧ dirOK R C b x y d := by
  by_cases hc : cell b x y = 1
  · simp only [get_legal_pos, hc, if_true, List.mem_append, mem_guard]
    constructor
    · rintro (((⟨h1, h2, rfl⟩ | ⟨h1, h2, rfl⟩) | ⟨h1, h2, rfl⟩) | ⟨h1, h2, rfl⟩)
      · exact ⟨0, (jumpDest_eq0 x y).symm, hc, Or.inl ⟨rfl, h1.1, h1.2, h2.1, h2.2⟩⟩
      · exact ⟨1, (jumpDest_eq1 x y).symm, hc, Or.inr (Or.inl ⟨rfl, h1, h2.1, h2.2⟩)⟩
      · exact ⟨2, (jumpDest_eq2 x y).symm, hc,
          Or.inr (Or.inr (Or.inl ⟨rfl, h1.1, h1.2, h2.1, h2.2⟩))⟩
      · exact ⟨3, (jumpDest_eq3 x y).symm, hc,
          Or.inr (Or.inr (Or.inr ⟨rfl, h1, h2.1, h2.2⟩))⟩
    · rintro ⟨d, rfl, _, (⟨rfl, g1, g2, g3, g4⟩ | ⟨rfl, g1, g2, g3⟩ |
        ⟨rfl, g1, g2, g3, g4⟩ | ⟨rfl, g1, g2, g3⟩)⟩
      · rw [jumpDest_eq0]
        exact Or.inl (Or.inl (Or.inl ⟨⟨g1, g2⟩, ⟨g3, g4⟩, rfl⟩))
      · rw [jumpDest_eq1]
        exact Or.inl (Or.inl (Or.inr ⟨g1, ⟨g2, g3⟩, rfl⟩))
      · rw [jumpDest_eq2]
        exact Or.inl (Or.inr ⟨⟨g1, g2⟩, ⟨g3, g4⟩, rfl⟩)
      · rw [jumpDest_eq3]
        exact Or.inr ⟨g1, ⟨g2, g3⟩, rfl⟩
  · simp only [get_legal_pos, hc, if_false]
    simp only [List.not_mem_nil, false_iff]
    rintro ⟨d, rfl, hc', _⟩
    exact hc hc'

/-- C9: `get_legal_pos` agrees with `get_legal_actions`: for an in-bounds
source `(x, y)`, a destination is listed by `get_legal_pos` exactly when it
is two steps away in some direction whose encoded action is listed by
`get_legal_actions`; and on an unoccupied source it returns `[]`. -/
theorem get_legal_pos_spec_C9 (R C : Nat) (b : Board) (x y : Nat)
    (hx : x < R) (hy : y < C) :
    (∀ q : Nat × Nat, q ∈ get_legal_pos R C b (x, y) ↔
      ∃ d, d < 4 ∧ q = jumpDest x y d ∧
        raw_to_std C (x, y) d ∈ get_legal_actions R C b) ∧
    (cell b x y ≠ 1 → get_legal_pos R C b (x, y) = []) := by
  constructor
  · intro q
    rw [mem_get_legal_pos]
    constructor
    · rintro ⟨d, rfl, hok⟩
      have hd := dirOK_d_lt hok
      exact ⟨d, hd, rfl, (encode_mem_iff hx hy hd).mpr hok⟩
    · rintro ⟨d, hd, rfl, hmem⟩
      exact ⟨d, rfl, (encode_mem_iff hx hy hd).mp hmem⟩
  · intro hc
    simp only [get_legal_pos]
    rw [if_neg hc]

theorem get_legal_pos_spec_C9_witness :
    (∀ q : Nat × Nat, q ∈ get_legal_pos 6 8 b0 (0, 2) ↔
      ∃ d, d < 4 ∧ q = jumpDest 0 2 d ∧
        raw_to_std 8 (0, 2) d ∈ get_legal_actions 6 8 b0) ∧
    (cell b0 0 2 ≠ 1 → get_legal_pos 6 8 b0 (0, 2) = []) :=
  get_legal_pos_spec_C9 6 8 b0 0 2 (by decide) (by decide)

end Ferrero
